import Mathlib

/-!
Shallow embedding of the Resume-Parser repository (src/main.py and
src/resume_parser.py) and verification of its specification claims.

Text is modelled as `List Char` (Python `str`), floating point similarity
scores as `ℚ` (only their ordering matters to the claims), and calls into
external libraries (pdfplumber, pytesseract, spaCy, sentence-transformers)
are modelled by explicit inputs describing the values those calls return,
with `Except Unit` marking a call that raises.
-/

/-- Whitespace as matched by Python's regex class backslash-s (and by
`str.strip` / `str.isspace`) on `str` inputs: the six ASCII whitespace
characters plus the Unicode whitespace code points. -/
def pyIsSpace (c : Char) : Bool :=
  c = ' ' || c = '\t' || c = '\n' || c = '\r' ||
  c.toNat = 11 || c.toNat = 12 ||
  (28 ≤ c.toNat && c.toNat ≤ 31) || c.toNat = 133 || c.toNat = 160 ||
  c.toNat = 0x1680 || (0x2000 ≤ c.toNat && c.toNat ≤ 0x200a) ||
  c.toNat = 0x2028 || c.toNat = 0x2029 || c.toNat = 0x202f ||
  c.toNat = 0x205f || c.toNat = 0x3000

/-- Run of `main.py` `process_text`, i.e. `re.sub` with pattern
backslash-s-plus and replacement a single space: every maximal run of
whitespace characters becomes one space, other characters are kept.  The
Boolean argument records whether the scan is currently inside a whitespace
run (whose single replacement space has already been emitted). -/
def collapseWS : Bool → List Char → List Char
  | _, [] => []
  | inRun, c :: cs =>
    if pyIsSpace c then
      if inRun then collapseWS true cs else ' ' :: collapseWS true cs
    else c :: collapseWS false cs

/-- The `process_text` function of main.py. -/
def processText (t : List Char) : List Char := collapseWS false t

/-- Python `str.strip()`: remove leading and trailing whitespace. -/
def pyStrip (l : List Char) : List Char :=
  ((l.dropWhile pyIsSpace).reverse.dropWhile pyIsSpace).reverse

lemma collapseWS_collapseWS :
    ∀ l : List Char,
      collapseWS true (collapseWS true l) = collapseWS true l ∧
      collapseWS false (collapseWS false l) = collapseWS false l := by
  intro l
  induction l with
  | nil => exact ⟨rfl, rfl⟩
  | cons c cs ih =>
    by_cases hc : pyIsSpace c = true
    · constructor
      · rw [show collapseWS true (c :: cs) = collapseWS true cs by
            simp [collapseWS, hc]]
        exact ih.1
      · rw [show collapseWS false (c :: cs) = ' ' :: collapseWS true cs by
            simp [collapseWS, hc]]
        rw [show collapseWS false (' ' :: collapseWS true cs)
              = ' ' :: collapseWS true (collapseWS true cs) by
            simp [collapseWS, show pyIsSpace ' ' = true from by decide]]
        rw [ih.1]
    · have hc' : pyIsSpace c = false := by simpa using hc
      constructor
      · rw [show collapseWS true (c :: cs) = c :: collapseWS false cs by
            simp [collapseWS, hc']]
        rw [show collapseWS true (c :: collapseWS false cs)
              = c :: collapseWS false (collapseWS false cs) by
            simp [collapseWS, hc']]
        rw [ih.2]
      · rw [show collapseWS false (c :: cs) = c :: collapseWS false cs by
            simp [collapseWS, hc']]
        rw [show collapseWS false (c :: collapseWS false cs)
              = c :: collapseWS false (collapseWS false cs) by
            simp [collapseWS, hc']]
        rw [ih.2]

/-- C9: `process_text` is idempotent — normalizing already-normalized text
changes nothing, since every whitespace run has been collapsed to a single
space and a single space is collapsed to itself. -/
theorem C9_processText_idempotent (t : List Char) :
    processText (processText t) = processText t :=
  (collapseWS_collapseWS t).2

/-! ### Case-insensitive substring search (re.IGNORECASE on the ASCII
section headers of main.py extract_information) -/

/-- ASCII lowercasing of a code point, the effect of `re.IGNORECASE` on the
ASCII-only header strings involved. -/
def lowerN (n : Nat) : Nat := if 65 ≤ n ∧ n ≤ 90 then n + 32 else n

/-- Case-insensitive character comparison. -/
def ciEq (a b : Char) : Bool := decide (lowerN a.toNat = lowerN b.toNat)

/-- Predicate `ciStarts nd hay`: `nd` matches case-insensitively at the front of
`hay`. -/
def ciStarts : List Char → List Char → Bool
  | [], _ => true
  | _ :: _, [] => false
  | a :: as, b :: bs => ciEq a b && ciStarts as bs

/-- First needle of `needles` (in regex alternation order) matching
case-insensitively at position `p` of `text`. -/
def aliasAt (text : List Char) (needles : List (List Char)) (p : Nat) :
    Option (List Char) :=
  needles.find? (fun nd => ciStarts nd (text.drop p))

/-- Scan positions `p, p+1, ...` (at most `fuel` of them) for the leftmost
match of any needle, as `re.search` does over an alternation. -/
def findAnyAux (text : List Char) (needles : List (List Char)) :
    Nat → Nat → Option (Nat × List Char)
  | _, 0 => none
  | p, fuel + 1 =>
    match aliasAt text needles p with
    | some nd => some (p, nd)
    | none => findAnyAux text needles (p + 1) fuel

/-- Leftmost case-insensitive occurrence of any needle in `text`, with the
matched needle. -/
def findAnyPos (text : List Char) (needles : List (List Char)) :
    Option (Nat × List Char) :=
  findAnyAux text needles 0 (text.length + 1)

/-- Python `$` without re.MULTILINE: matches at end of text and just before
a newline that ends the text. -/
def dollarAt (text : List Char) (p : Nat) : Bool :=
  p == text.length || (p + 1 == text.length && text.getD p ' ' == '\n')

/-- The lookahead of the section patterns of extract_information: some
terminator header matches at `p`, or `$` matches at `p`. -/
def lookAt (text : List Char) (terms : List (List Char)) (p : Nat) : Bool :=
  (aliasAt text terms p).isSome || dollarAt text p

/-- Lazy expansion of the captured group: the capture ends at the first
position at or after the capture start where the lookahead succeeds. -/
def captureEndAux (text : List Char) (terms : List (List Char)) :
    Nat → Nat → Nat
  | p, 0 => p
  | p, fuel + 1 =>
    if lookAt text terms p then p else captureEndAux text terms (p + 1) fuel

def captureEnd (text : List Char) (terms : List (List Char)) (s : Nat) : Nat :=
  captureEndAux text terms s (text.length + 1 - s)

/-- One section regex of extract_information: find the leftmost alias
occurrence, capture lazily from just after it up to the first terminator
occurrence or end-of-text. `none` models a failed `re.search`. -/
def sectionSpan (text : List Char) (aliases terms : List (List Char)) :
    Option (Nat × Nat) :=
  match findAnyPos text aliases with
  | none => none
  | some (i, al) =>
    some (i + al.length, captureEnd text terms (i + al.length))

/-- The stored section value: the captured group, stripped. -/
def sectionText (text : List Char) (aliases terms : List (List Char)) :
    Option (List Char) :=
  (sectionSpan text aliases terms).map
    (fun se => pyStrip ((text.drop se.1).take (se.2 - se.1)))

/-! ### Alias and terminator lists, exactly as in the regexes of
main.py extract_information (lines 66-104) -/

def eduAliases : List (List Char) := ["EDUCATION".data]
def eduTerms : List (List Char) :=
  ["EXPERIENCE".data, "WORK EXPERIENCE".data, "TECHNICAL SKILLS".data,
   "CERTIFICATIONS".data, "PROJECTS".data, "LANGUAGES".data, "AWARDS".data]

def expAliases : List (List Char) := ["EXPERIENCE".data, "WORK EXPERIENCE".data]
def expTerms : List (List Char) :=
  ["TECHNICAL SKILLS".data, "CERTIFICATIONS".data, "PROJECTS".data,
   "LANGUAGES".data, "AWARDS".data]

def skillsAliases : List (List Char) := ["TECHNICAL SKILLS".data]
def skillsTerms : List (List Char) :=
  ["EXPERIENCE".data, "WORK EXPERIENCE".data, "EDUCATION".data,
   "CERTIFICATIONS".data, "PROJECTS".data, "LANGUAGES".data, "AWARDS".data]

def certAliases : List (List Char) := ["CERTIFICATION".data, "CERTIFICATIONS".data]
def certTerms : List (List Char) :=
  ["EXPERIENCE".data, "WORK EXPERIENCE".data, "EDUCATION".data,
   "TECHNICAL SKILLS".data, "PROJECTS".data, "LANGUAGES".data, "AWARDS".data]

def awardsAliases : List (List Char) := ["AWARD".data, "AWARDS".data]
def awardsTerms : List (List Char) :=
  ["EXPERIENCE".data, "WORK EXPERIENCE".data, "EDUCATION".data,
   "TECHNICAL SKILLS".data, "CERTIFICATIONS".data, "PROJECTS".data,
   "LANGUAGES".data]

def projectsAliases : List (List Char) := ["PROJECTS".data]
def projectsTerms : List (List Char) :=
  ["EXPERIENCE".data, "WORK EXPERIENCE".data, "EDUCATION".data,
   "TECHNICAL SKILLS".data, "CERTIFICATIONS".data, "LANGUAGES".data,
   "AWARDS".data]

def languagesAliases : List (List Char) := ["LANGUAGES".data]
def languagesTerms : List (List Char) :=
  ["EXPERIENCE".data, "WORK EXPERIENCE".data, "EDUCATION".data,
   "TECHNICAL SKILLS".data, "CERTIFICATIONS".data, "PROJECTS".data,
   "AWARDS".data]

/-! ### Field extraction: email and phone regexes -/

/-- ASCII word character, the effect of regex backslash-w / backslash-b on
the ASCII inputs involved. -/
def isWordChar (c : Char) : Bool :=
  (48 ≤ c.toNat && c.toNat ≤ 57) || (65 ≤ c.toNat && c.toNat ≤ 90) ||
  (97 ≤ c.toNat && c.toNat ≤ 122) || c = '_'

def isDigitC (c : Char) : Bool := 48 ≤ c.toNat && c.toNat ≤ 57

/-- Character class of the email fallback pattern of main.py line 62:
word characters, dot and dash. -/
def emailChar (c : Char) : Bool := isWordChar c || c = '.' || c = '-'

/-- Match of the email fallback pattern at the front of `cs`.  The class
excludes the at-sign, so the greedy plus-run is exactly the maximal
`emailChar` run and no further backtracking arises: the pattern matches
here iff a nonempty run is followed by an at-sign and another nonempty
run. -/
def emailMatchAt (cs : List Char) : Option (List Char) :=
  let run1 := cs.takeWhile emailChar
  match cs.drop run1.length with
  | '@' :: rest =>
    let run2 := rest.takeWhile emailChar
    if run1.isEmpty || run2.isEmpty then none
    else some (run1 ++ '@' :: run2)
  | _ => none

/-- Python `re.search` of the email fallback pattern: first matching position. -/
def emailSearch : List Char → Option (List Char)
  | [] => none
  | c :: cs =>
    match emailMatchAt (c :: cs) with
    | some m => some m
    | none => emailSearch cs

/-- Exactly `n` characters satisfying `p`, then continue with `k`. -/
def matchDigits (p : Char → Bool) : Nat → (List Char → Bool) → List Char → Bool
  | 0, k, cs => k cs
  | _ + 1, _, [] => false
  | n + 1, k, c :: cs => p c && matchDigits p n k cs

/-- A greedy optional single character of class `p` (regex `X?`): try
consuming it, else proceed without. -/
def matchOpt (p : Char → Bool) (k : List Char → Bool) : List Char → Bool
  | [] => k []
  | c :: cs => (p c && k cs) || k (c :: cs)

/-- Separator class of the main.py phone pattern: dash, dot or
whitespace. -/
def mainSepC (c : Char) : Bool := c = '-' || c = '.' || pyIsSpace c

/-- main.py line 57 phone pattern, matched at the front of the input:
optional open paren, three digits, optional close paren, optional
separator, three digits, optional separator, four digits. -/
def mainPhoneAt : List Char → Bool :=
  matchOpt (fun c => c = '(')
    (matchDigits isDigitC 3 (matchOpt (fun c => c = ')')
      (matchOpt mainSepC (matchDigits isDigitC 3
        (matchOpt mainSepC (matchDigits isDigitC 4 (fun _ => true)))))))

/-- Python `re.findall` is nonempty iff the pattern matches at some position. -/
def searchPos (m : List Char → Bool) : List Char → Bool
  | [] => m []
  | c :: cs => m (c :: cs) || searchPos m cs

/-- Whether main.py line 57 finds a phone number in `text`. -/
def mainPhoneFound (text : List Char) : Bool := searchPos mainPhoneAt text

/-- First separator class of the resume_parser.py phone pattern: dash, dot,
close paren or whitespace. -/
def rpSep1C (c : Char) : Bool := c = '-' || c = '.' || c = ')' || pyIsSpace c

/-- Second separator class of the resume_parser.py phone pattern. -/
def rpSep2C (c : Char) : Bool := c = '-' || c = '.' || pyIsSpace c

/-- Regex backslash-b between the previous character (`none` at the start
of text) and the rest of the input. -/
def atBoundary (prev : Option Char) (cs : List Char) : Bool :=
  (match prev with | none => false | some p => isWordChar p) !=
  (match cs with | [] => false | c :: _ => isWordChar c)

/-- Trailing backslash-b of the resume_parser.py pattern: the preceding
character is always a digit there, so it holds iff the next character is
absent or a non-word character. -/
def endAfterDigits : List Char → Bool
  | [] => true
  | c :: _ => !isWordChar c

/-- Body of the resume_parser.py line 99 pattern after the optional open
paren: boundary, three digits, optional first separator, three digits,
optional second separator, four digits, boundary. -/
def rpCore (prev : Option Char) (cs : List Char) : Bool :=
  atBoundary prev cs &&
  matchDigits isDigitC 3 (matchOpt rpSep1C (matchDigits isDigitC 3
    (matchOpt rpSep2C (matchDigits isDigitC 4 endAfterDigits)))) cs

/-- resume_parser.py line 99 phone pattern at one position: the optional
open paren is tried greedily first. -/
def rpPhoneAt (prev : Option Char) : List Char → Bool
  | '(' :: cs => rpCore (some '(') cs || rpCore prev ('(' :: cs)
  | cs => rpCore prev cs

/-- Position scan threading the previous character for the boundary
assertions. -/
def searchPrev (m : Option Char → List Char → Bool) :
    Option Char → List Char → Bool
  | prev, [] => m prev []
  | prev, c :: cs => m prev (c :: cs) || searchPrev m (some c) cs

/-- Whether resume_parser.py line 99 finds a phone number in `text`. -/
def rpPhoneFound (text : List Char) : Bool := searchPrev rpPhoneAt none text

/-! ### main.py extract_information -/

/-- The dictionary built by main.py `extract_information`.  Every field is
always assigned there (the sentinel `'N/A'` is modelled as `none`); the
phone entry only records whether the `findall` list was nonempty, since no
claim depends on the matched substring itself. -/
structure InfoData where
  email : Option (List Char)
  phoneFound : Bool
  education : Option (List Char)
  experience : Option (List Char)
  skills : Option (List Char)
  certifications : Option (List Char)
  awards : Option (List Char)
  projects : Option (List Char)
  languages : Option (List Char)

/-- main.py `extract_information`.  `ents` models the spaCy entity list
`doc.ents` of the input text as (text, label) pairs; the entity recognizer
is a black box, so its output is an input here.  The email entry is the
first EMAIL-labelled entity, else the first regex fallback match, else the
sentinel. -/
def extractInformation (text : List Char)
    (ents : List (List Char × List Char)) : InfoData :=
  let entEmail := (ents.find? (fun e => e.2 == "EMAIL".data)).map Prod.fst
  { email :=
      match entEmail with
      | some e => some e
      | none => emailSearch text
    phoneFound := mainPhoneFound text
    education := sectionText text eduAliases eduTerms
    experience := sectionText text expAliases expTerms
    skills := sectionText text skillsAliases skillsTerms
    certifications := sectionText text certAliases certTerms
    awards := sectionText text awardsAliases awardsTerms
    projects := sectionText text projectsAliases projectsTerms
    languages := sectionText text languagesAliases languagesTerms }

/-! ### Properties of the section capture -/

lemma ciStarts_length :
    ∀ {nd hay : List Char}, ciStarts nd hay = true → nd.length ≤ hay.length := by
  intro nd
  induction nd with
  | nil => intro hay _; simp
  | cons a as ih =>
    intro hay h
    cases hay with
    | nil => simp [ciStarts] at h
    | cons b bs =>
      simp only [ciStarts, Bool.and_eq_true] at h
      have := ih h.2
      simpa using Nat.succ_le_succ this

lemma aliasAt_some_le {text : List Char} {nds : List (List Char)} {p : Nat}
    {nd : List Char} (h : aliasAt text nds p = some nd) :
    p + nd.length ≤ text.length ∨ nd.length = 0 := by
  have hpred := List.find?_some h
  have hlen := ciStarts_length hpred
  simp only [List.length_drop] at hlen
  omega

lemma findAnyAux_some {text : List Char} {nds : List (List Char)} :
    ∀ {fuel p i al}, findAnyAux text nds p fuel = some (i, al) →
      p ≤ i ∧ aliasAt text nds i = some al := by
  intro fuel
  induction fuel with
  | zero => intro p i al h; simp [findAnyAux] at h
  | succ f ih =>
    intro p i al h
    rw [findAnyAux] at h
    cases hq : aliasAt text nds p with
    | some nd =>
      rw [hq] at h
      simp only [Option.some.injEq, Prod.mk.injEq] at h
      obtain ⟨h1, h2⟩ := h
      subst h1; subst h2
      exact ⟨le_rfl, hq⟩
    | none =>
      rw [hq] at h
      have := ih h
      exact ⟨by omega, this.2⟩

lemma lookAt_end (text : List Char) (terms : List (List Char)) :
    lookAt text terms text.length = true := by
  simp [lookAt, dollarAt]

lemma captureEndAux_spec (text : List Char) (terms : List (List Char)) :
    ∀ fuel p, p ≤ text.length → p + fuel = text.length + 1 →
      p ≤ captureEndAux text terms p fuel ∧
      lookAt text terms (captureEndAux text terms p fuel) = true ∧
      ∀ q, p ≤ q → q < captureEndAux text terms p fuel →
        lookAt text terms q = false := by
  intro fuel
  induction fuel with
  | zero => intro p h1 h2; omega
  | succ f ih =>
    intro p h1 h2
    rw [captureEndAux]
    by_cases hl : lookAt text terms p = true
    · rw [if_pos hl]
      exact ⟨le_rfl, hl, fun q hq1 hq2 => by omega⟩
    · have hne : p ≠ text.length := fun he => hl (he ▸ lookAt_end text terms)
      have hp1 : p + 1 ≤ text.length := by omega
      have hrec := ih (p + 1) hp1 (by omega)
      rw [if_neg hl]
      refine ⟨le_trans (Nat.le_succ p) hrec.1, hrec.2.1, ?_⟩
      intro q hq1 hq2
      rcases Nat.eq_or_lt_of_le hq1 with he | hlt
      · subst he; simpa using hl
      · exact hrec.2.2 q hlt hq2

/-- C1 (amended): whenever main.py's Experience regex matches, the captured
span starts right after the matched alias and ends at the first position at
or after the capture start where one of the Experience terminators
(TECHNICAL SKILLS, CERTIFICATIONS, PROJECTS, LANGUAGES, AWARDS) matches
case-insensitively or the end-of-text anchor holds — and EDUCATION is not
among those terminators, so the capture may run past a later EDUCATION
header (the counterexample exhibits this). -/
theorem C1_experience_capture_end (text : List Char) (s e : Nat)
    (h : sectionSpan text expAliases expTerms = some (s, e)) :
    s ≤ e ∧ lookAt text expTerms e = true ∧
      (∀ q, s ≤ q → q < e → lookAt text expTerms q = false) ∧
      "EDUCATION".data ∉ expTerms := by
  rw [sectionSpan] at h
  cases hf : findAnyPos text expAliases with
  | none => rw [hf] at h; simp at h
  | some ial =>
    rw [hf] at h
    obtain ⟨i, al⟩ := ial
    simp only [Option.some.injEq, Prod.mk.injEq] at h
    obtain ⟨hs, he⟩ := h
    subst hs
    subst he
    have hia := findAnyAux_some hf
    have hal : al.length ≠ 0 := by
      have hmem := List.mem_of_find?_eq_some hia.2
      have hor : al = "EXPERIENCE".data ∨ al = "WORK EXPERIENCE".data := by
        simpa [expAliases] using hmem
      rcases hor with h1 | h1
      · subst h1; decide
      · subst h1; decide
    have hsle : i + al.length ≤ text.length := by
      rcases aliasAt_some_le hia.2 with hle | h0
      · omega
      · exact absurd h0 hal
    have hspec := captureEndAux_spec text expTerms
      (text.length + 1 - (i + al.length)) (i + al.length) hsle (by omega)
    exact ⟨hspec.1, hspec.2.1, hspec.2.2, by decide⟩

/-- C1 witness: on `"EXPERIENCE A AWARDS B"` the Experience capture is the
span (10, 13): the lookahead holds at 13 (where AWARDS starts) and the
capture start 10 precedes it. -/
theorem C1_experience_capture_end_witness :
    10 ≤ 13 ∧ lookAt ("EXPERIENCE A AWARDS B".data) expTerms 13 = true :=
  (fun h => ⟨h.1, h.2.1⟩)
    (C1_experience_capture_end ("EXPERIENCE A AWARDS B".data) 10 13 (by decide))

/-- C1 counterexample: with text `"EXPERIENCE developed systems EDUCATION
BS 2020"` the captured Experience body runs past the later EDUCATION
header (EDUCATION is not an Experience terminator in main.py line 73),
instead of stopping before it as the claim states. -/
theorem C1_counterexample :
    (extractInformation ("EXPERIENCE developed systems EDUCATION BS 2020".data)
        []).experience = some ("developed systems EDUCATION BS 2020".data) ∧
    (extractInformation ("EXPERIENCE developed systems EDUCATION BS 2020".data)
        []).experience ≠ some ("developed systems".data) := by
  constructor
  · decide
  · decide

/-- C4 counterexample: on a text of the spec's shape the Education value is
not `"BS CS 2020"` — the colon after the EDUCATION header is part of the
captured group and survives stripping. -/
theorem C4_counterexample :
    (extractInformation
        ("JOHN SMITH EDUCATION: BS CS 2020 EXPERIENCE: Software Engineer".data)
        []).education ≠ some ("BS CS 2020".data) := by decide

/-- C4 (amended): segmenting `"JOHN SMITH EDUCATION: BS CS 2020
EXPERIENCE: Software Engineer"` yields Education `": BS CS 2020"`: the
capture excludes the header text EDUCATION itself and is trimmed of
leading and trailing whitespace, but the colon directly after the header
is retained. -/
theorem C4_education_value :
    (extractInformation
        ("JOHN SMITH EDUCATION: BS CS 2020 EXPERIENCE: Software Engineer".data)
        []).education = some (": BS CS 2020".data) := by decide

/-! ### resume_parser.py parse_resume: skill matching (lines 103-112) -/

/-- Case-insensitive equality of two whole strings, the effect of a spaCy
Matcher pattern on the token's LOWER attribute. -/
def ciEqL : List Char → List Char → Bool
  | [], [] => true
  | [], _ :: _ => false
  | _ :: _, [] => false
  | a :: as, b :: bs => ciEq a b && ciEqL as bs

/-- The matches of the single-token LOWER patterns built from `vocab`, in
document order: every token whose lowercasing equals the lowercasing of
some vocabulary entry, with its literal document casing.  The spaCy
tokenizer is a black box, so the token list is an input. -/
def matchedSkills (vocab tokens : List (List Char)) : List (List Char) :=
  tokens.filter (fun t => vocab.any (fun v => ciEqL v t))

/-- The dedup append of resume_parser.py line 111: `if skill not in
parsed_data["Skills"]` — an exact, case-sensitive membership test. -/
def addSkill (acc : List (List Char)) (s : List Char) : List (List Char) :=
  if s ∈ acc then acc else acc ++ [s]

/-- The Skills list built by resume_parser.py parse_resume. -/
def skillsOf (vocab tokens : List (List Char)) : List (List Char) :=
  (matchedSkills vocab tokens).foldl addSkill []

/-- The fixed skill vocabulary of resume_parser.py line 104. -/
def skillsList : List (List Char) :=
  ["Python".data, "Java".data, "Machine Learning".data, "SQL".data,
   "Data Analysis".data, "TensorFlow".data, "PyTorch".data, "NLP".data]

lemma addSkill_nodup {acc : List (List Char)} (s : List Char)
    (h : acc.Nodup) : (addSkill acc s).Nodup := by
  rw [addSkill]
  split
  · exact h
  · next hmem => simp [List.nodup_append, h, hmem]

lemma foldl_addSkill_nodup :
    ∀ (ts acc : List (List Char)), acc.Nodup → (ts.foldl addSkill acc).Nodup := by
  intro ts
  induction ts with
  | nil => intro acc h; simpa using h
  | cons t ts ih => intro acc h; exact ih _ (addSkill_nodup t h)

/-- C2 counterexample: on vocabulary Python, SQL and the tokens of
`"Experienced in Python and SQL and python"`, the Skills list is Python,
SQL, python — the second, lowercase occurrence of python is appended again
because line 111's membership test is case-sensitive, so the list holds a
case-insensitive duplicate and differs from the claimed value. -/
theorem C2_counterexample :
    skillsOf ["Python".data, "SQL".data]
        ["Experienced".data, "in".data, "Python".data, "and".data,
         "SQL".data, "and".data, "python".data]
      = ["Python".data, "SQL".data, "python".data] ∧
    ciEqL ("python".data) ("Python".data) = true := by
  constructor
  · decide
  · decide

/-- C2 (amended): the skills list contains each matched string at most once
under exact case-sensitive comparison (occurrences differing only in casing
are recorded separately, each with its literal casing); in particular the
example text yields Python, SQL, python. -/
theorem C2_skills_nodup :
    (∀ vocab tokens : List (List Char), (skillsOf vocab tokens).Nodup) ∧
    skillsOf ["Python".data, "SQL".data]
        ["Experienced".data, "in".data, "Python".data, "and".data,
         "SQL".data, "and".data, "python".data]
      = ["Python".data, "SQL".data, "python".data] := by
  constructor
  · intro vocab tokens
    exact foldl_addSkill_nodup _ _ (by simp)
  · decide

/-! ### resume_parser.py rank_applicants (lines 151-165) -/

/-- Stable descending insertion used to model Python `sorted(...,
reverse=True)`: the new element `x`, which comes later in the original
order than everything already placed, goes after every element whose score
is greater than or equal to its own and before the first strictly smaller
one. -/
def insScore (x : Nat × ℚ) : List (Nat × ℚ) → List (Nat × ℚ)
  | [] => [x]
  | y :: ys => if y.2 < x.2 then x :: y :: ys else y :: insScore x ys

/-- Model of `sorted(range(len(sims)), key, reverse=True)` on index-score pairs:
Python's sort is stable and `reverse=True` preserves stability, which this
left-to-right insertion realizes. -/
def stableSortDesc (l : List (Nat × ℚ)) : List (Nat × ℚ) :=
  l.foldl (fun acc x => insScore x acc) []

/-- The `ranked_indices` of resume_parser.py line 162. -/
def rankedIndices (sims : List ℚ) : List Nat :=
  (stableSortDesc sims.enum).map Prod.fst

/-- resume_parser.py `rank_applicants`: the embedding model and cosine
similarity are black boxes, so the similarity list is an input (in the
source it has one entry per resume).  Line 163 builds the ranked
(resume, score) pairs by indexing; out-of-range indices cannot occur there
and are skipped here. -/
def rankApplicants {α : Type} (resumes : List α) (sims : List ℚ) :
    List (α × ℚ) :=
  (rankedIndices sims).filterMap (fun i =>
    match resumes[i]?, sims[i]? with
    | some r, some sc => some (r, sc)
    | _, _ => none)

/-- Descending order with ties broken by ascending original index: the
order of a stable descending sort of enumerated scores. -/
def lexDesc (a b : Nat × ℚ) : Prop := b.2 < a.2 ∨ (a.2 = b.2 ∧ a.1 < b.1)

lemma insScore_perm (x : Nat × ℚ) :
    ∀ l : List (Nat × ℚ), (insScore x l).Perm (x :: l) := by
  intro l
  induction l with
  | nil => rfl
  | cons y ys ih =>
    rw [insScore]
    split
    · rfl
    · exact (List.Perm.cons y ih).trans (List.Perm.swap x y ys)

lemma mem_insScore {z x : Nat × ℚ} {l : List (Nat × ℚ)} :
    z ∈ insScore x l ↔ z = x ∨ z ∈ l := by
  rw [(insScore_perm x l).mem_iff]
  simp

lemma insScore_pairwise {x : Nat × ℚ} :
    ∀ {l : List (Nat × ℚ)}, List.Pairwise lexDesc l →
      (∀ y ∈ l, y.1 < x.1) → List.Pairwise lexDesc (insScore x l) := by
  intro l
  induction l with
  | nil => intro _ _; simp [insScore]
  | cons y ys ih =>
    intro hp hidx
    rw [insScore]
    rw [List.pairwise_cons] at hp
    split
    · next hlt =>
      refine List.pairwise_cons.mpr ⟨?_, List.pairwise_cons.mpr hp⟩
      intro z hz
      rcases List.mem_cons.mp hz with rfl | hz'
      · exact Or.inl hlt
      · rcases hp.1 z hz' with hzy | hzy
        · exact Or.inl (lt_trans hzy hlt)
        · exact Or.inl (hzy.1 ▸ hlt)
    · next hge =>
      refine List.pairwise_cons.mpr ⟨?_, ?_⟩
      · intro z hz
        rcases mem_insScore.mp hz with rfl | hz'
        · rcases lt_or_eq_of_le (not_lt.mp hge) with hlt | heq
          · exact Or.inl hlt
          · exact Or.inr ⟨heq.symm, hidx y (List.mem_cons_self y ys)⟩
        · exact hp.1 z hz'
      · exact ih hp.2 (fun z hz => hidx z (List.mem_cons_of_mem y hz))

lemma stableSort_perm_aux :
    ∀ (xs acc : List (Nat × ℚ)),
      (xs.foldl (fun a x => insScore x a) acc).Perm (acc ++ xs) := by
  intro xs
  induction xs with
  | nil => intro acc; simp
  | cons x xs ih =>
    intro acc
    have h1 := ih (insScore x acc)
    have h2 : (insScore x acc ++ xs).Perm (acc ++ x :: xs) :=
      ((insScore_perm x acc).append_right xs).trans List.perm_middle.symm
    exact (List.foldl_cons _ _ ▸ h1).trans h2

lemma stableSort_pairwise_aux :
    ∀ (xs acc : List (Nat × ℚ)),
      List.Pairwise lexDesc acc →
      List.Pairwise (fun a b : Nat × ℚ => a.1 < b.1) xs →
      (∀ y ∈ acc, ∀ x ∈ xs, y.1 < x.1) →
      List.Pairwise lexDesc (xs.foldl (fun a x => insScore x a) acc) := by
  intro xs
  induction xs with
  | nil => intro acc hacc _ _; simpa using hacc
  | cons x xs ih =>
    intro acc hacc hxs hcross
    rw [List.pairwise_cons] at hxs
    refine ih (insScore x acc)
      (insScore_pairwise hacc (fun y hy => hcross y hy x (List.mem_cons_self x xs)))
      hxs.2 ?_
    intro y hy z hz
    rcases mem_insScore.mp hy with rfl | hy'
    · exact hxs.1 z hz
    · exact hcross y hy' z (List.mem_cons_of_mem x hz)

lemma enum_pairwise_fst (sims : List ℚ) :
    List.Pairwise (fun a b : Nat × ℚ => a.1 < b.1) sims.enum := by
  have h2 : (sims.enum.map Prod.fst).Pairwise (· < ·) := by
    rw [List.enum_map_fst]
    exact List.pairwise_lt_range _
  exact (List.pairwise_map).mp h2

/-- C3: rank_applicants orders the enumerated similarity scores as a
permutation sorted strictly descending by score with ties in ascending
original-index order — a stable descending sort, so resumes with equal
scores keep their input order; the ranked index list reads off the sorted
pairs. -/
theorem C3_ranking_stable_descending (sims : List ℚ) :
    List.Pairwise lexDesc (stableSortDesc sims.enum) ∧
    (stableSortDesc sims.enum).Perm sims.enum ∧
    rankedIndices sims = (stableSortDesc sims.enum).map Prod.fst := by
  refine ⟨?_, ?_, rfl⟩
  · exact stableSort_pairwise_aux sims.enum []
      (List.Pairwise.nil) (enum_pairwise_fst sims) (by simp)
  · simpa using stableSort_perm_aux sims.enum []

/-! ### Phone extraction claims -/

lemma searchPos_of_match {m : List Char → Bool} {rest : List Char}
    (h : m rest = true) : searchPos m rest = true := by
  cases rest with
  | nil => simpa [searchPos] using h
  | cons c cs => simp [searchPos, h]

lemma searchPos_append (m : List Char → Bool) :
    ∀ (pre rest : List Char), m rest = true →
      searchPos m (pre ++ rest) = true := by
  intro pre
  induction pre with
  | nil => intro rest h; simpa using searchPos_of_match h
  | cons c pre ih =>
    intro rest h
    rw [List.cons_append, searchPos, ih rest h]
    simp

/-- C5 counterexample: resume_parser.py line 99's pattern allows only a
single separator character after the area code, so the two characters
close-paren space of `"(555) 123-4567"` cannot be consumed and the text
yields no phone match — parse_resume stores the absent-field sentinel. -/
theorem C5_counterexample : rpPhoneFound ("(555) 123-4567".data) = false := by
  decide

/-- C5 (amended): main.py line 57's pattern matches each of the three
North-American formats wherever one occurs as a substring, so main.py's
phone extraction never yields the sentinel on such texts;
resume_parser.py line 99's pattern accepts the dashed and dotted forms
(the parenthesized form is rejected there, see the counterexample). -/
theorem C5_phone_formats :
    (∀ pre post : List Char,
        mainPhoneFound (pre ++ "555-123-4567".data ++ post) = true ∧
        mainPhoneFound (pre ++ "(555) 123-4567".data ++ post) = true ∧
        mainPhoneFound (pre ++ "555.123.4567".data ++ post) = true) ∧
    rpPhoneFound ("555-123-4567".data) = true ∧
    rpPhoneFound ("555.123.4567".data) = true := by
  refine ⟨?_, by decide, by decide⟩
  intro pre post
  refine ⟨?_, ?_, ?_⟩
  · rw [List.append_assoc]
    exact searchPos_append mainPhoneAt pre _ rfl
  · rw [List.append_assoc]
    exact searchPos_append mainPhoneAt pre _ rfl
  · rw [List.append_assoc]
    exact searchPos_append mainPhoneAt pre _ rfl

/-! ### resume_parser.py text acquisition (lines 34-62) -/

/-- A PDF as seen through the libraries: the text pdfplumber extracts per
page, and the text pytesseract returns per rendered page image.  Library
calls that raise propagate out of both functions unchanged and are not
modelled here; the claims concern the no-text case, in which every call
returns normally. -/
structure PdfDoc where
  pageTexts : List (List Char)
  ocrTexts : List (List Char)

/-- Page-order concatenation by `text += ...`. -/
def concatTexts (ts : List (List Char)) : List Char := ts.foldl (· ++ ·) []

/-- resume_parser.py `extract_text_from_scanned_pdf`: concatenated OCR
output in page order. -/
def extractTextFromScannedPdf (d : PdfDoc) : List Char := concatTexts d.ocrTexts

/-- resume_parser.py `extract_text_from_pdf`: direct page text, with the
OCR fallback when the concatenation strips to nothing. -/
def extractTextFromPdf (d : PdfDoc) : List Char :=
  let text := concatTexts d.pageTexts
  if pyStrip text = [] then extractTextFromScannedPdf d else text

/-- C6 counterexample: a document whose only page text and only OCR output
are a single space — the direct concatenation strips to nothing, the OCR
fallback runs, and its whitespace-only output is returned as the result.
No ExtractionError is defined or raised anywhere in the source. -/
theorem C6_counterexample :
    extractTextFromPdf (PdfDoc.mk [[' ']] [[' ']]) = [' '] := by decide

/-- C6 (amended): whenever direct extraction yields only whitespace, the
function returns the OCR concatenation unconditionally — even when that is
itself empty or whitespace-only; there is no ExtractionError path, and
empty text is returned as a successful result. -/
theorem C6_ocr_fallback_returned (d : PdfDoc)
    (h : pyStrip (concatTexts d.pageTexts) = []) :
    extractTextFromPdf d = extractTextFromScannedPdf d := by
  rw [extractTextFromPdf]
  simp [h]

/-- C6 witness: the empty document satisfies the hypothesis, and the
theorem applies to it. -/
theorem C6_ocr_fallback_returned_witness :
    pyStrip (concatTexts (PdfDoc.mk [] []).pageTexts) = [] ∧
    extractTextFromPdf (PdfDoc.mk [] [])
      = extractTextFromScannedPdf (PdfDoc.mk [] []) :=
  ⟨by decide, C6_ocr_fallback_returned (PdfDoc.mk [] []) (by decide)⟩

/-- C7 counterexample: with no candidates (the black-box embedding of an
empty batch yielding an empty similarity list), rank_applicants returns the
empty ranking as a successful result; the source defines no RankingError,
and its except block only re-raises whatever a library call raised. -/
theorem C7_counterexample :
    rankApplicants ([] : List Nat) ([] : List ℚ) = [] := rfl

/-- C7 (amended): whenever the similarity list is empty — in particular for
an empty candidate list, whose encoding produces no scores — rank_applicants
returns the empty list successfully instead of failing. -/
theorem C7_empty_ranking {α : Type} (resumes : List α) :
    rankApplicants resumes ([] : List ℚ) = [] := rfl

/-! ### main.py text acquisition and parse_resume (lines 14-37, 108-119) -/

/-- main.py `extract_text` loop body: pages are read in order; a page whose
`extract_text()` call raises stops the loop via the except block, which
falls through to `return text` with the text accumulated so far. -/
def extractTextLoop (acc : List Char) :
    List (Except Unit (List Char)) → List Char
  | [] => acc
  | Except.error _ :: _ => acc
  | Except.ok t :: rest => extractTextLoop (acc ++ t ++ ['\n']) rest

/-- main.py `extract_text`: `Except.error` at the outer level models
`pdfplumber.open` itself raising (text stays empty), at a page it models
that page's extraction raising. -/
def extractTextMain :
    Except Unit (List (Except Unit (List Char))) → List Char
  | Except.error _ => []
  | Except.ok ps => extractTextLoop [] ps

/-- The page texts successfully read before the first failing page. -/
def okPagesBefore : List (Except Unit (List Char)) → List (List Char)
  | [] => []
  | Except.error _ :: _ => []
  | Except.ok t :: rest => t :: okPagesBefore rest

/-- Newline-terminated page-order concatenation. -/
def joinNL (ts : List (List Char)) : List Char :=
  ts.foldl (fun acc t => acc ++ t ++ ['\n']) []

lemma extractTextLoop_eq_foldl :
    ∀ (ps : List (Except Unit (List Char))) (acc : List Char),
      extractTextLoop acc ps
        = (okPagesBefore ps).foldl (fun a t => a ++ t ++ ['\n']) acc := by
  intro ps
  induction ps with
  | nil => intro acc; rfl
  | cons p rest ih =>
    intro acc
    cases p with
    | error e => rfl
    | ok t => simpa [extractTextLoop, okPagesBefore] using ih (acc ++ t ++ ['\n'])

/-- C10: main.py `extract_text` is total over all failure patterns of the
underlying reads — an open failure yields the empty string, and a failure
at any page yields exactly the newline-joined text of the pages read before
it; no exception escapes the function. -/
theorem C10_extract_text_accumulated :
    (∀ ps, extractTextMain (Except.ok ps) = joinNL (okPagesBefore ps)) ∧
    extractTextMain (Except.error ()) = [] := by
  refine ⟨?_, rfl⟩
  intro ps
  exact extractTextLoop_eq_foldl ps []

/-- A word-layout record from `page.extract_words()`: its text and the
float height, modelled as `ℚ` (only the exact-equality comparison with the
page maximum matters). -/
structure PdfWord where
  text : List Char
  height : ℚ

/-- Python `max(float(word['height']) for word in text_data)` over a nonempty
page. -/
def maxHeight : List PdfWord → ℚ
  | [] => 0
  | w :: ws => ws.foldl (fun m x => max m x.height) w.height

/-- Python `" ".join(...)`. -/
def joinSpace : List (List Char) → List Char
  | [] => []
  | t :: ts => ts.foldl (fun acc x => acc ++ ' ' :: x) t

/-- The words of one page whose height equals the page maximum exactly,
joined with spaces (main.py line 33). -/
def pageLargestWords (ws : List PdfWord) : List Char :=
  joinSpace ((ws.filter (fun w => decide (w.height = maxHeight ws))).map
    PdfWord.text)

/-- main.py `extract_largest_text` loop: empty word lists are skipped via
`continue`; a raising `extract_words()` call stops the loop with the text
accumulated so far (the except block falls through to the return). -/
def largestLoop (acc : List Char) :
    List (Except Unit (List PdfWord)) → List Char
  | [] => acc
  | Except.error _ :: _ => acc
  | Except.ok ws :: rest =>
    if ws.isEmpty then largestLoop acc rest
    else largestLoop (acc ++ pageLargestWords ws ++ [' ']) rest

/-- main.py `extract_largest_text`: the accumulated largest-font text,
stripped on every return path. -/
def extractLargestText :
    Except Unit (List (Except Unit (List PdfWord))) → List Char
  | Except.error _ => pyStrip []
  | Except.ok ps => pyStrip (largestLoop [] ps)

/-- The dictionary returned by main.py `parse_resume`: the Name entry is
`none` when the key is absent from the dict — unlike every
extract_information entry, it is only assigned when the layout candidate is
nonempty (line 116). -/
structure ParsedResume where
  name : Option (List Char)
  info : InfoData

/-- main.py `parse_resume`.  The two pdfplumber passes are independent
library interactions, given as the page-text and page-words inputs; `ents`
stands for the spaCy entities of the processed text. -/
def parseResumeMain
    (textPdf : Except Unit (List (Except Unit (List Char))))
    (wordsPdf : Except Unit (List (Except Unit (List PdfWord))))
    (ents : List (List Char × List Char)) : ParsedResume :=
  let text := processText (extractTextMain textPdf)
  let info := extractInformation text ents
  let largest := extractLargestText wordsPdf
  { name := if largest.isEmpty then none else some largest, info := info }

/-- C8: the Name key of the parse_resume dict is present exactly when the
layout-based candidate is nonempty; a PDF from which no words are
extracted therefore produces a record with no Name key at all — the code
bug behind the claim, since display_resume reads the key unconditionally.
Every extract_information entry, by contrast, is always assigned
(structurally: every InfoData field of the record is defined). -/
theorem C8_name_key_conditional :
    (∀ textPdf wordsPdf ents,
        ((parseResumeMain textPdf wordsPdf ents).name = none ↔
          extractLargestText wordsPdf = [])) ∧
    (parseResumeMain (Except.ok []) (Except.ok []) []).name = none := by
  constructor
  · intro textPdf wordsPdf ents
    rw [parseResumeMain]
    cases h : (extractLargestText wordsPdf).isEmpty
    · simp only [h, if_false]
      constructor
      · intro hc; exact absurd hc (by simp)
      · intro hc; rw [hc] at h; simp at h
    · simp only [h, if_true]
      simp only [List.isEmpty_iff] at h
      simp [h]
  · rfl
